import Mathlib

/-!
Verification development for the generator-plugin runtime of
`prisma-client-rust` (`crates/sdk/src/runtime.rs`): the jsonrpc protocol
loop (`GeneratorMetadata::run`), the generation pipeline
(`GeneratorMetadata::generate`) and the module-tree writer
(`write_module_to_file` / `write_to_file`).

Paths are modelled as plain strings; the relevant `std::path::Path`
operations (`extension`, `with_extension`, `join`, `parent`) are embedded
as functions on the underlying character lists, following their documented
semantics for the simple relative paths the runtime manipulates.
-/

namespace Sdk

/-- Characters of the final path component: everything after the last
slash (the whole string when no slash occurs).  Mirrors
`Path::file_name` for the simple relative paths used by the runtime. -/
def fileNameChars (cs : List Char) : List Char :=
  (cs.reverse.takeWhile (fun c => c != '/')).reverse

/-- Characters of the leading directory part, slash included: the prefix
of the path that precedes the final component. -/
def dirSlashChars (cs : List Char) : List Char :=
  (cs.reverse.dropWhile (fun c => c != '/')).reverse

/-- The characters of a file name after its final dot (the whole file
name when it has no dot). -/
def extAfterChars (f : List Char) : List Char :=
  (f.reverse.takeWhile (fun c => c != '.')).reverse

/-- The extension of a path, mirroring `Path::extension`: the portion of
the file name after the final dot, provided that dot is neither absent
nor the leading character of the file name. -/
def pathExtension (p : String) : Option String :=
  if (extAfterChars (fileNameChars p.data)).length + 1 < (fileNameChars p.data).length
  then some (String.mk (extAfterChars (fileNameChars p.data)))
  else none

/-- The file stem, mirroring `Path::file_stem`: the file name up to its
final dot when an extension exists, the whole file name otherwise. -/
def stemChars (f : List Char) : List Char :=
  if (extAfterChars f).length + 1 < f.length
  then f.take (f.length - ((extAfterChars f).length + 1))
  else f

/-- Path with its extension replaced, mirroring `Path::with_extension`:
directory part, then the file stem, then a dot and the new extension. -/
def withExtension (p ext : String) : String :=
  String.mk (dirSlashChars p.data ++ stemChars (fileNameChars p.data) ++ '.' :: ext.data)

/-- Joining a relative component onto a path, mirroring `Path::join` for
a relative right-hand side. -/
def pathJoin (p s : String) : String := p ++ "/" ++ s

/-- Parent of a path, mirroring `Path::parent`: `none` for the empty
path, otherwise the directory part without its trailing slash (the empty
string when the path is a bare file name, the root when the directory
part is just the root slash). -/
def parentDir (p : String) : Option String :=
  if p.data.isEmpty then none
  else if (dirSlashChars p.data).isEmpty then some ""
  else if dirSlashChars p.data = ['/'] then some "/"
  else some (String.mk (dirSlashChars p.data).dropLast)

/-- Modelled from the spec: the case conversion used for module file and
directory names (`to_case(Case::Snake, ..)` / `snake_ident`, which live
outside `src/`) is described as converting the node name "to snake/lower
form".  An uppercase letter is lowercased, and preceded by an underscore
unless it starts the name. -/
def snakeCharsGo : Bool → List Char → List Char
  | _, [] => []
  | first, c :: rest =>
    if c.isUpper then
      (if first then [c.toLower] else ['_', c.toLower]) ++ snakeCharsGo false rest
    else
      c :: snakeCharsGo false rest

/-- Modelled from the spec: snake-case conversion of a module name. -/
def toSnake (s : String) : String := String.mk (snakeCharsGo true s.data)

/-- A usable module-name image: nonempty and free of dots and slashes,
so that joining it onto a path yields a fresh extensionless component. -/
def identOkB (s : String) : Bool :=
  !s.data.isEmpty && s.data.all (fun c => c != '.' && c != '/')

/-- The module tree (`Module` in the sdk prelude): a name, literal
contents (a `TokenStream`, modelled as its text) and the ordered list of
submodules. -/
inductive Module : Type where
  | mk (name : String) (contents : String) (submodules : List Module)

/-- Name of a module node. -/
def Module.name : Module → String
  | .mk n _ _ => n

/-- Literal contents of a module node. -/
def Module.contents : Module → String
  | .mk _ c _ => c

/-- Ordered submodules of a module node. -/
def Module.submodules : Module → List Module
  | .mk _ _ s => s

mutual

/-- Modelled from the spec: `Module::flatten` is not under `src/`; the
spec describes it as concatenating, depth-first, every node's own
content, with the end-to-end file-layout scenario placing the child
content before the node's own content. -/
def Module.flatten : Module → String
  | .mk _ c subs => String.join (flattenList subs) ++ c

def flattenList : List Module → List String
  | [] => []
  | sm :: rest => sm.flatten :: flattenList rest

end

mutual

/-- Every submodule name in the tree has a usable snake-case image
(nonempty, free of dots and slashes).  The root name is not constrained:
it never contributes to a path. -/
def namesOk : Module → Bool
  | .mk _ _ subs => namesOkList subs

def namesOkList : List Module → Bool
  | [] => true
  | c :: rest => (identOkB (toSnake c.name) && namesOk c) && namesOkList rest

end

mutual

/-- Modelled from the spec: `Module::get_all_paths` is not under `src/`.
The spec requires path enumeration to "match exactly the on-disk layout
just produced": the single output path under file layout (whose validated
output path carries an extension), and one path per leaf plus one
aggregator path per directory under folder layout (extensionless paths),
so the enumeration dispatches on whether the path carries an extension. -/
def Module.get_all_paths : Module → String → List String
  | .mk _ _ subs, p =>
    if (pathExtension p).isSome then [p]
    else if subs.isEmpty then [withExtension p "rs"]
    else getAllPathsList subs p ++ [pathJoin p "mod.rs"]

def getAllPathsList : List Module → String → List String
  | [], _ => []
  | c :: rest, p =>
    c.get_all_paths (pathJoin p (toSnake c.name)) ++ getAllPathsList rest p

end

/-- The write primitive (`write_to_file` in `runtime.rs`): creates the
parent directories and writes header-plus-contents to the path.  In the
plan embedding it contributes the written file as a path/content pair. -/
def write_to_file (contents : String) (path : String) (header : String) :
    String × String :=
  (path, header ++ contents)

/-- Aggregator-file contents: one `pub mod <snake name>;` declaration per
submodule, in order, followed by the node's own contents — the
`quote!` body built in `write_module_to_file`. -/
def modFileContents (subs : List Module) (contents : String) : String :=
  String.join (subs.map (fun sm => "pub mod " ++ toSnake sm.name ++ ";\n")) ++ contents

mutual

/-- Folder materialization (`write_module_to_file` in `runtime.rs`) as a
pure write plan: the ordered list of (path, contents) pairs written.  A
node with submodules recurses into each child with the child's
snake-cased name joined onto the parent path, then writes the
aggregator `mod.rs`; a childless node writes its contents to the parent
path with the `rs` extension. -/
def write_module_to_file : Module → String → String → List (String × String)
  | .mk _ ct subs, parent_path, header =>
    if !subs.isEmpty then
      writeSubmodules subs parent_path header
      ++ [write_to_file (modFileContents subs ct) (pathJoin parent_path "mod.rs") header]
    else
      [write_to_file ct (withExtension parent_path "rs") header]

def writeSubmodules : List Module → String → String → List (String × String)
  | [], _, _ => []
  | child :: rest, parent_path, header =>
    write_module_to_file child (pathJoin parent_path (toSnake child.name)) header
      ++ writeSubmodules rest parent_path header

end

/-- The output-layout selector (`ClientFormat` in `shared_config.rs`,
outside `src/`; the spec fixes exactly the two variants "folder" and
"file"). -/
inductive ClientFormat : Type where
  | Folder
  | File
deriving DecidableEq

/-- What exists on disk at the configured output path when a generate
invocation starts: nothing, a regular file with some contents, or a
directory (removable, or protected so that recursive removal fails with
a permission error). -/
inductive OutputState : Type where
  | absent
  | file (contents : String)
  | dir (removable : Bool)
deriving DecidableEq

/-- `std::fs::remove_dir_all` at the output path, per its documented
semantics: it removes a directory and its contents; on a missing target
or on a plain file it fails and removes nothing, and a permission error
while removing a directory also leaves it in place.  The runtime discards
the result (`.ok()`), so only the state transition matters. -/
def remove_dir_all : OutputState → OutputState
  | .dir true => .absent
  | s => s

/-- The layout-versus-extension validation match at the top of
`GeneratorMetadata::generate`: the panic message it raises, or `none`
when the configuration passes. -/
def formatPathPanic (fmt : ClientFormat) (out : String) : Option String :=
  match fmt with
  | .Folder =>
    if (pathExtension out).isSome then
      some "The output path must be a directory when using the folder format."
    else none
  | .File =>
    if (pathExtension out).isNone then
      some "The output path must be a file when using the file format."
    else none

/-- How one generate invocation ends: a process abort (`panic!` or a
failing `expect`/`unwrap`), the one recoverable `GeneratorError` returned
to the caller, or success. -/
inductive GenOutcome : Type where
  | panics (msg : String)
  | errs (msg : String)
  | ok
deriving DecidableEq

/-- Observable effects of one generate invocation: whether the
user-supplied generation function was invoked, whether the cleanup
removal was attempted, the state at the output path after cleanup, the
ordered file writes (path and contents), the directories passed to
`create_dir_all` (one parent per write), and the paths handed to the
external formatter. -/
structure GenTrace : Type where
  gen_fn_called : Bool
  remove_attempted : Bool
  state_after_cleanup : OutputState
  writes : List (String × String)
  dirs_created : List String
  rustfmt_paths : List String
deriving DecidableEq

/-- The part of the engine payload the pipeline consumes
(`EngineDMMF`, outside `src/`): the textual datamodel (handed opaquely
to the schema parser), the configured output path
(`generator.output.get_value()`), and the `SharedConfig` projection of
the generator configuration block.  Schema parsing, query-schema
building and dmmf flattening are opaque external collaborators and do
not influence the properties below. -/
structure EngineDMMF : Type where
  datamodel : String
  output : String
  client_format : ClientFormat

/-- The static generator identity plus the caller-supplied generation
function (`GeneratorMetadata` in `runtime.rs`).  The generation function
is a black box from payload to either a module tree or the message of a
`GeneratorError`. -/
structure GeneratorMetadata : Type where
  name : String
  default_output : String
  generate_fn : EngineDMMF → Except String Module

/-- The generated-file header comment. -/
def genHeader (name : String) : String :=
  "// File generated by " ++ name ++ ". DO NOT EDIT\n\n"

/-- `GeneratorMetadata::generate`: validate the layout/extension
invariant (panicking on mismatch before the generation function runs),
invoke the generation function (its error is the one recoverable
failure, surfaced before any filesystem effect), then best-effort-remove
stale output, write the module tree according to the layout, and collect
the formatter paths. -/
def GeneratorMetadata.generate (g : GeneratorMetadata) (pre : OutputState)
    (d : EngineDMMF) : GenOutcome × GenTrace :=
  match formatPathPanic d.client_format d.output with
  | some msg => (.panics msg, ⟨false, false, pre, [], [], []⟩)
  | none =>
    match g.generate_fn d with
    | .error e => (.errs e, ⟨true, false, pre, [], [], []⟩)
    | .ok root_module =>
      let after := remove_dir_all pre
      let header := genHeader g.name
      let writes :=
        match d.client_format with
        | .Folder => write_module_to_file root_module d.output header
        | .File => [write_to_file root_module.flatten d.output header]
      (.ok, ⟨true, true, after, writes,
        writes.filterMap (fun w => parentDir w.1),
        root_module.get_all_paths d.output⟩)

/-- Correlation identifier of a request: the host may use a number or a
string, and it is echoed back in the same form. -/
inductive JsonId : Type where
  | num (n : Int)
  | str (s : String)
deriving DecidableEq

/-- One jsonrpc request line: correlation id, method name, opaque
parameter payload (kept as its raw text). -/
structure Request : Type where
  id : JsonId
  method : String
  params : String
deriving DecidableEq

/-- The manifest advertised on `getManifest` (`jsonrpc::Manifest`,
outside `src/`; the spec fixes `prettyName`, `defaultOutput` and
"other fields default-empty", modelled as a list of extra key/value
pairs whose default is empty). -/
structure Manifest : Type where
  pretty_name : String
  default_output : String
  other_fields : List (String × String)
deriving DecidableEq

/-- Result payloads the runtime ever produces: `null` for a successful
generate, or the manifest object. -/
inductive ResultPayload : Type where
  | null
  | manifest (m : Manifest)
deriving DecidableEq

/-- Body of a response: a success result or an error with numeric code
and message. -/
inductive ResponseData : Type where
  | result (v : ResultPayload)
  | error (code : Int) (message : String)
deriving DecidableEq

/-- One jsonrpc response: protocol version tag, echoed id, body. -/
structure Response : Type where
  jsonrpc : String
  id : JsonId
  data : ResponseData
deriving DecidableEq

/-- Host-side environment of a session: how the opaque generate params
decode into the engine payload (`none` models the fatal
`serde_path_to_error` decode abort) and what exists at the output path. -/
structure Host : Type where
  decode : String → Option EngineDMMF
  pre : OutputState

/-- Method dispatch of one request (the `match input.method.as_str()`
block in `GeneratorMetadata::run`): `getManifest` answers the identity
manifest; `generate` decodes the payload and runs the pipeline, mapping
its recoverable error to an error response with code 0 and success to a
null result; any other method answers an error response with code 0
naming the generator and the method.  `none` models a process abort
(decode failure or a pipeline panic), which emits no response. -/
def stepResult (g : GeneratorMetadata) (h : Host) (r : Request) :
    Option ResponseData :=
  if r.method = "getManifest" then
    some (.result (.manifest ⟨g.name, g.default_output, []⟩))
  else if r.method = "generate" then
    match h.decode r.params with
    | none => none
    | some d =>
      match (g.generate h.pre d).1 with
      | .panics _ => none
      | .errs e => some (.error 0 e)
      | .ok => some (.result .null)
  else
    some (.error 0 (g.name ++ " cannot handle method " ++ r.method))

/-- The protocol loop (`GeneratorMetadata::run`) over the sequence of
request lines the host would send: each processed request is paired with
the response written for it; a response is written before the loop
decides whether to stop, and the loop breaks exactly after responding to
a `generate` request.  An abort (`none` from dispatch) ends the session
with no response for that request. -/
def run (g : GeneratorMetadata) (h : Host) : List Request → List (Request × Response)
  | [] => []
  | r :: rest =>
    match stepResult g h r with
    | none => []
    | some d =>
      (r, ⟨"2.0", r.id, d⟩) ::
        (if r.method = "generate" then [] else run g h rest)

/-- Serialized form of a correlation id. -/
def serializeId : JsonId → String
  | .num n => toString n
  | .str s => "\"" ++ s ++ "\""

/-- Serialized form of a result payload. -/
def serializeResult : ResultPayload → String
  | .null => "null"
  | .manifest m =>
    "\x7b\"manifest\": \x7b\"prettyName\": \"" ++ m.pretty_name
      ++ "\", \"defaultOutput\": \"" ++ m.default_output ++ "\"\x7d\x7d"

/-- Serialized form of a response body. -/
def serializeData : ResponseData → String
  | .result v => "\"result\": " ++ serializeResult v
  | .error c m =>
    "\"error\": \x7b\"code\": " ++ toString c ++ ", \"message\": \"" ++ m ++ "\"\x7d"

/-- Serialized form of a full response object. -/
def serializeResponse (r : Response) : String :=
  "\x7b\"jsonrpc\": \"" ++ r.jsonrpc ++ "\", \"id\": " ++ serializeId r.id
    ++ ", " ++ serializeData r.data ++ "\x7d"

/-- The byte writes issued to the standard error stream during a
session: one single write per response, the serialized response followed
by the trailing newline pushed before writing. -/
def stderrWrites (g : GeneratorMetadata) (h : Host) (reqs : List Request) :
    List String :=
  (run g h reqs).map (fun pr => serializeResponse pr.2 ++ "\n")

/-- Strong induction over the module tree: to prove a property of every
node it suffices to prove it for a node assuming it for all submodules. -/
theorem Module.strongInd (P : Module → Prop)
    (step : ∀ n c subs, (∀ x ∈ subs, P x) → P (.mk n c subs)) :
    ∀ m, P m
  | .mk n c subs => step n c subs (fun x hx => Module.strongInd P step x)
termination_by m => sizeOf m
decreasing_by
  simp only [Module.mk.sizeOf_spec]
  have h := List.sizeOf_lt_of_mem hx
  omega

/-- Characters of a dot-free, slash-free list survive `takeWhile` on
either predicate; appending such a block after a failing separator makes
`takeWhile` stop at the separator. -/
theorem takeWhile_append_sep {p : Char → Bool} :
    ∀ (l₁ : List Char) (x : Char) (l₂ : List Char),
      (∀ y ∈ l₁, p y = true) → p x = false →
      (l₁ ++ x :: l₂).takeWhile p = l₁
  | [], x, l₂, _, hx => by simp [List.takeWhile, hx]
  | y :: l₁, x, l₂, hall, hx => by
    have hy : p y = true := hall y (by simp)
    simp only [List.cons_append, List.takeWhile, hy]
    simpa using takeWhile_append_sep l₁ x l₂ (fun z hz => hall z (by simp [hz])) hx

/-- Counterpart of `takeWhile_append_sep` for `dropWhile`. -/
theorem dropWhile_append_sep {p : Char → Bool} :
    ∀ (l₁ : List Char) (x : Char) (l₂ : List Char),
      (∀ y ∈ l₁, p y = true) → p x = false →
      (l₁ ++ x :: l₂).dropWhile p = x :: l₂
  | [], x, l₂, _, hx => by simp [List.dropWhile, hx]
  | y :: l₁, x, l₂, hall, hx => by
    have hy : p y = true := hall y (by simp)
    simp only [List.cons_append, List.dropWhile, hy]
    exact dropWhile_append_sep l₁ x l₂ (fun z hz => hall z (by simp [hz])) hx

/-- `dropWhile` over a wholly satisfying list is empty. -/
theorem dropWhile_all {p : Char → Bool} :
    ∀ l : List Char, (∀ y ∈ l, p y = true) → l.dropWhile p = []
  | [], _ => rfl
  | y :: l, hall => by
    have hy : p y = true := hall y (by simp)
    simp only [List.dropWhile, hy]
    exact dropWhile_all l (fun z hz => hall z (by simp [hz]))

/-- The result of `dropWhile` is empty or starts with a failing element. -/
theorem dropWhile_head {p : Char → Bool} :
    ∀ l : List Char, l.dropWhile p = [] ∨
      ∃ x xs, l.dropWhile p = x :: xs ∧ p x = false
  | [] => Or.inl rfl
  | y :: l => by
    cases hy : p y with
    | true => simpa [List.dropWhile, hy] using dropWhile_head l
    | false => exact Or.inr ⟨y, l, by simp [List.dropWhile, hy], hy⟩

/-- The file-name part of a path ending in a slash-free block is that
block. -/
theorem fileNameChars_append (a : List Char) (b : List Char)
    (hb : ∀ c ∈ b, (c != '/') = true) :
    fileNameChars (a ++ '/' :: b) = b := by
  unfold fileNameChars
  have : (a ++ '/' :: b).reverse = b.reverse ++ '/' :: a.reverse := by simp
  rw [this, takeWhile_append_sep b.reverse '/' a.reverse
    (fun y hy => hb y (List.mem_reverse.mp hy)) (by simp), List.reverse_reverse]

/-- The directory part of a path ending in a slash-free block is
everything up to and including the final slash. -/
theorem dirSlashChars_append (a : List Char) (b : List Char)
    (hb : ∀ c ∈ b, (c != '/') = true) :
    dirSlashChars (a ++ '/' :: b) = a ++ ['/'] := by
  unfold dirSlashChars
  have : (a ++ '/' :: b).reverse = b.reverse ++ '/' :: a.reverse := by simp
  rw [this, dropWhile_append_sep b.reverse '/' a.reverse
    (fun y hy => hb y (List.mem_reverse.mp hy)) (by simp)]
  simp

/-- A slash-free path is all file name. -/
theorem fileNameChars_no_slash (l : List Char)
    (hl : ∀ c ∈ l, (c != '/') = true) : fileNameChars l = l := by
  unfold fileNameChars
  rw [List.takeWhile_eq_self_iff.mpr (fun y hy => hl y (List.mem_reverse.mp hy)),
    List.reverse_reverse]

/-- A slash-free path has an empty directory part. -/
theorem dirSlashChars_no_slash (l : List Char)
    (hl : ∀ c ∈ l, (c != '/') = true) : dirSlashChars l = [] := by
  unfold dirSlashChars
  rw [dropWhile_all l.reverse (fun y hy => hl y (List.mem_reverse.mp hy))]
  rfl

/-- Every path splits into its directory part followed by its file name. -/
theorem dirSlash_append_fileName (l : List Char) :
    dirSlashChars l ++ fileNameChars l = l := by
  unfold dirSlashChars fileNameChars
  rw [← List.reverse_append, List.takeWhile_append_dropWhile, List.reverse_reverse]

/-- Members of a `takeWhile` satisfy the predicate. -/
theorem mem_takeWhile_pred {p : Char → Bool} :
    ∀ (l : List Char) (c : Char), c ∈ l.takeWhile p → p c = true := by
  intro l
  induction l with
  | nil => intro c hc; simp [List.takeWhile] at hc
  | cons y l ih =>
    intro c hc
    cases hy : p y with
    | false => rw [List.takeWhile_cons, hy] at hc; simp at hc
    | true =>
      rw [List.takeWhile_cons, hy] at hc
      rcases List.mem_cons.mp hc with h | h
      · exact h ▸ hy
      · exact ih c h

/-- File-name characters never include a slash. -/
theorem fileNameChars_mem (l : List Char) (c : Char) (hc : c ∈ fileNameChars l) :
    (c != '/') = true := by
  unfold fileNameChars at hc
  rw [List.mem_reverse] at hc
  exact mem_takeWhile_pred l.reverse c hc

/-- The directory part is empty or ends with a slash. -/
theorem dirSlashChars_last (l : List Char) :
    dirSlashChars l = [] ∨ ∃ a, dirSlashChars l = a ++ ['/'] := by
  unfold dirSlashChars
  rcases @dropWhile_head (fun c => c != '/') l.reverse with h | ⟨x, xs, hx, hpx⟩
  · exact Or.inl (by simp [h])
  · have hx' : x = '/' := by simpa using hpx
    exact Or.inr ⟨xs.reverse, by simp [hx, hx']⟩

/-- A usable name is nonempty and its characters avoid dots and slashes. -/
theorem identOk_spec {s : String} (h : identOkB s = true) :
    s.data ≠ [] ∧ ∀ c ∈ s.data, (c != '.') = true ∧ (c != '/') = true := by
  unfold identOkB at h
  rw [Bool.and_eq_true, List.all_eq_true] at h
  refine ⟨fun hnil => by simp [hnil] at h, fun c hc => ?_⟩
  have := h.2 c hc
  rw [Bool.and_eq_true] at this
  exact this

/-- The characters of a join: the left path, a slash, the component. -/
theorem pathJoin_data (p s : String) :
    (pathJoin p s).data = p.data ++ '/' :: s.data := by
  unfold pathJoin
  rw [String.data_append, String.data_append]
  simp

/-- A dot-free block is all extension-after part. -/
theorem extAfterChars_no_dot (l : List Char)
    (hl : ∀ c ∈ l, (c != '.') = true) : extAfterChars l = l := by
  unfold extAfterChars
  rw [List.takeWhile_eq_self_iff.mpr (fun y hy => hl y (List.mem_reverse.mp hy)),
    List.reverse_reverse]

/-- Joining a usable component yields an extensionless path. -/
theorem pathExtension_join {p s : String} (h : identOkB s = true) :
    pathExtension (pathJoin p s) = none := by
  obtain ⟨-, hchars⟩ := identOk_spec h
  unfold pathExtension
  rw [pathJoin_data, fileNameChars_append p.data s.data (fun c hc => (hchars c hc).2),
    extAfterChars_no_dot s.data (fun c hc => (hchars c hc).1)]
  simp

/-- Adding the `rs` extension to a join of a usable component simply
appends a dot and the extension. -/
theorem withExtension_join {p s : String} (h : identOkB s = true) :
    withExtension (pathJoin p s) "rs" = pathJoin p s ++ ".rs" := by
  obtain ⟨-, hchars⟩ := identOk_spec h
  unfold withExtension stemChars
  rw [pathJoin_data, fileNameChars_append p.data s.data (fun c hc => (hchars c hc).2),
    dirSlashChars_append p.data s.data (fun c hc => (hchars c hc).2),
    extAfterChars_no_dot s.data (fun c hc => (hchars c hc).1)]
  simp only [Nat.lt_irrefl, if_neg (lt_irrefl _)]
  apply String.ext
  rw [String.data_append, pathJoin_data]
  simp

/-- Fixture: the module tree of the spec's end-to-end scenario. -/
def wTree : Module := .mk "Client" "A" [.mk "Model" "B" []]

/-- Fixture: a childless root module. -/
def wLeaf : Module := .mk "Client" "A" []

/-- Fixture: a generator whose generation function succeeds with the
scenario tree. -/
def wGenOk : GeneratorMetadata := ⟨"prisma-client-rust", "./db", fun _ => .ok wTree⟩

/-- Fixture: a generator whose generation function fails. -/
def wGenErr : GeneratorMetadata :=
  ⟨"prisma-client-rust", "./db", fun _ => .error "model failure"⟩

/-- Fixture: an engine payload selecting the file layout. -/
def wDmmfFile : EngineDMMF := ⟨"model User", "./generated/client.rs", .File⟩

/-- Fixture: an engine payload selecting the folder layout. -/
def wDmmfFolder : EngineDMMF := ⟨"model User", "./generated", .Folder⟩

/-- Fixture: a host sending the file-layout payload over a clean output
path. -/
def wHostFile : Host := ⟨fun _ => some wDmmfFile, .absent⟩

/-- Claim C3: a generate request is always the last request processed in
a session — once its response (success or error) is written, the loop
stops and reads no further input (the tail of the request stream is
irrelevant); any other method leaves the loop running on the rest. -/
theorem claim3_generate_terminal (g : GeneratorMetadata) (h : Host) (r : Request)
    (d : ResponseData) (hd : stepResult g h r = some d) :
    (r.method = "generate" →
      ∀ rest : List Request, run g h (r :: rest) = [(r, ⟨"2.0", r.id, d⟩)])
    ∧ (r.method ≠ "generate" →
      ∀ rest : List Request,
        run g h (r :: rest) = (r, ⟨"2.0", r.id, d⟩) :: run g h rest) := by
  constructor
  · intro hm rest
    simp [run, hd, hm]
  · intro hm rest
    simp [run, hd, hm]

/-- Witness for C3: a successful generate request followed by another
queued request produces exactly the one generate response, and the
queued request is never processed. -/
theorem claim3_witness :
    run wGenOk wHostFile [⟨.num 1, "generate", "p"⟩, ⟨.num 2, "getManifest", ""⟩]
      = [(⟨.num 1, "generate", "p"⟩, ⟨"2.0", .num 1, .result .null⟩)] :=
  (claim3_generate_terminal wGenOk wHostFile ⟨.num 1, "generate", "p"⟩
    (.result .null) (by decide)).1 rfl [⟨.num 2, "getManifest", ""⟩]

/-- Claim C6: an unrecognized method is answered with an error response
of code 0 whose message contains the generator name and the method
string, and the loop continues with the next request. -/
theorem claim6_unknown_method (g : GeneratorMetadata) (h : Host) (r : Request)
    (rest : List Request)
    (h1 : r.method ≠ "getManifest") (h2 : r.method ≠ "generate") :
    stepResult g h r = some (.error 0 (g.name ++ " cannot handle method " ++ r.method))
    ∧ (∃ mid : String,
        g.name ++ " cannot handle method " ++ r.method
          = g.name ++ (mid ++ r.method))
    ∧ run g h (r :: rest)
        = (r, ⟨"2.0", r.id, .error 0 (g.name ++ " cannot handle method " ++ r.method)⟩)
          :: run g h rest := by
  have hs : stepResult g h r
      = some (.error 0 (g.name ++ " cannot handle method " ++ r.method)) := by
    simp [stepResult, h1, h2]
  refine ⟨hs, ⟨" cannot handle method ", by rw [String.append_assoc]⟩, ?_⟩
  simp [run, hs, h2]

/-- Witness for C6: the method "getConfig" is unrecognized; the session
answers with the code-0 error naming generator and method and then
processes the following request. -/
theorem claim6_witness :
    stepResult wGenOk wHostFile ⟨.str "a", "getConfig", ""⟩
      = some (.error 0 ("prisma-client-rust" ++ " cannot handle method " ++ "getConfig"))
    ∧ (∃ mid : String,
        "prisma-client-rust" ++ " cannot handle method " ++ "getConfig"
          = "prisma-client-rust" ++ (mid ++ "getConfig"))
    ∧ run wGenOk wHostFile [⟨.str "a", "getConfig", ""⟩]
        = (⟨.str "a", "getConfig", ""⟩,
            ⟨"2.0", .str "a",
              .error 0 ("prisma-client-rust" ++ " cannot handle method " ++ "getConfig")⟩)
          :: run wGenOk wHostFile [] :=
  claim6_unknown_method wGenOk wHostFile ⟨.str "a", "getConfig", ""⟩ []
    (by decide) (by decide)

/-- Claim C7: a getManifest request, whatever its params, is answered
with a success result whose manifest carries exactly the configured name
as prettyName and the configured default output, all other fields left
at their empty defaults. -/
theorem claim7_manifest (g : GeneratorMetadata) (h : Host) (id : JsonId)
    (params : String) :
    stepResult g h ⟨id, "getManifest", params⟩
      = some (.result (.manifest ⟨g.name, g.default_output, []⟩)) := rfl

/-- Pairs produced by the loop: every processed request is paired with a
response built from the protocol tag "2.0", that request's id, and the
dispatched body. -/
theorem run_pairs (g : GeneratorMetadata) (h : Host) :
    ∀ (reqs : List Request) (pr : Request × Response), pr ∈ run g h reqs →
      ∃ d, stepResult g h pr.1 = some d ∧ pr.2 = ⟨"2.0", pr.1.id, d⟩ := by
  intro reqs
  induction reqs with
  | nil => intro pr hpr; simp [run] at hpr
  | cons r rest ih =>
    intro pr hpr
    simp only [run] at hpr
    cases hs : stepResult g h r with
    | none => rw [hs] at hpr; simp at hpr
    | some d =>
      rw [hs] at hpr
      simp only [List.mem_cons] at hpr
      rcases hpr with heq | hmem
      · subst heq; exact ⟨d, hs, rfl⟩
      · by_cases hg : r.method = "generate"
        · rw [if_pos hg] at hmem; simp at hmem
        · rw [if_neg hg] at hmem; exact ih pr hmem

/-- Claim C8: every processed request gets exactly one response; the
standard-error writes are one serialized, newline-terminated write per
response, and each response carries the "2.0" tag, the request's id
echoed verbatim and form-preserving, and either a result or an error
with numeric code and message. -/
theorem claim8_response_shape (g : GeneratorMetadata) (h : Host)
    (reqs : List Request) :
    stderrWrites g h reqs
      = (run g h reqs).map (fun pr => serializeResponse pr.2 ++ "\n")
    ∧ (stderrWrites g h reqs).length = (run g h reqs).length
    ∧ ∀ pr ∈ run g h reqs,
        pr.2.jsonrpc = "2.0"
        ∧ pr.2.id = pr.1.id
        ∧ (∀ n, pr.1.id = .num n → pr.2.id = .num n)
        ∧ (∀ s, pr.1.id = .str s → pr.2.id = .str s)
        ∧ ((∃ v, pr.2.data = .result v) ∨ ∃ c m, pr.2.data = .error c m) := by
  refine ⟨rfl, by simp [stderrWrites], ?_⟩
  intro pr hpr
  obtain ⟨d, -, hresp⟩ := run_pairs g h reqs pr hpr
  refine ⟨by rw [hresp], by rw [hresp], fun n hn => by rw [hresp, hn],
    fun s hs => by rw [hresp, hs], ?_⟩
  cases d with
  | result v => exact Or.inl ⟨v, by rw [hresp]⟩
  | error c m => exact Or.inr ⟨c, m, by rw [hresp]⟩

/-- Witness for C8: the response to a concrete getManifest request has
the protocol tag, the echoed numeric id, and a success body. -/
theorem claim8_witness :
    ((⟨.num 7, "getManifest", "x"⟩, ⟨"2.0", .num 7,
        .result (.manifest ⟨"prisma-client-rust", "./db", []⟩)⟩) :
        Request × Response).2.jsonrpc = "2.0"
    ∧ ((⟨.num 7, "getManifest", "x"⟩, ⟨"2.0", .num 7,
        .result (.manifest ⟨"prisma-client-rust", "./db", []⟩)⟩) :
        Request × Response).2.id
      = (⟨.num 7, "getManifest", "x"⟩ : Request).id
    ∧ (∀ n, (JsonId.num 7) = .num n → (JsonId.num 7) = JsonId.num n)
    ∧ (∀ s, (JsonId.num 7) = .str s → (JsonId.num 7) = JsonId.str s)
    ∧ ((∃ v, (ResponseData.result (.manifest ⟨"prisma-client-rust", "./db", []⟩))
          = .result v)
        ∨ ∃ c m, (ResponseData.result (.manifest ⟨"prisma-client-rust", "./db", []⟩))
          = .error c m) :=
  (claim8_response_shape wGenOk wHostFile [⟨.num 7, "getManifest", "x"⟩]).2.2
    (⟨.num 7, "getManifest", "x"⟩, ⟨"2.0", .num 7,
      .result (.manifest ⟨"prisma-client-rust", "./db", []⟩)⟩) (by decide)

/-- Claim C4: a layout/extension mismatch — folder layout with a
non-empty extension on the output path, or file layout with no extension
— makes the pipeline panic with the descriptive configuration message
before the generation function is ever invoked: the outcome is the same
for every generation function, and the trace records that the function
was not called and nothing was removed or written. -/
theorem claim4_validation_first (n dflt : String)
    (f : EngineDMMF → Except String Module) (pre : OutputState) (d : EngineDMMF)
    (hbad : (d.client_format = .Folder
        ∧ ∃ e, pathExtension d.output = some e ∧ e ≠ "")
      ∨ (d.client_format = .File ∧ pathExtension d.output = none)) :
    (GeneratorMetadata.mk n dflt f).generate pre d
      = (.panics (match d.client_format with
          | .Folder => "The output path must be a directory when using the folder format."
          | .File => "The output path must be a file when using the file format."),
         ⟨false, false, pre, [], [], []⟩) := by
  rcases hbad with ⟨hf, e, he, -⟩ | ⟨hf, he⟩ <;>
    simp [GeneratorMetadata.generate, formatPathPanic, hf, he]

/-- Witness for C4: with file layout and the extensionless output path
of the folder fixture, generation panics with the file-format message
and the generation function (here one that would succeed) is unused. -/
theorem claim4_witness :
    (GeneratorMetadata.mk "prisma-client-rust" "./db" (fun _ => .ok wTree)).generate
        .absent ⟨"model User", "./generated", .File⟩
      = (.panics "The output path must be a file when using the file format.",
         ⟨false, false, .absent, [], [], []⟩) :=
  claim4_validation_first "prisma-client-rust" "./db" (fun _ => .ok wTree)
    .absent ⟨"model User", "./generated", .File⟩ (Or.inr ⟨rfl, by decide⟩)

/-- Claim C9: when the generation function returns an error, the
invocation performs no filesystem effect — no removal is attempted, the
output-path state is untouched, nothing is written, no directory is
created, nothing is formatted — and the loop surfaces exactly that error
as the code-0 protocol error response. -/
theorem claim9_error_leaves_fs (n dflt : String)
    (f : EngineDMMF → Except String Module) (pre : OutputState) (d : EngineDMMF)
    (e : String)
    (hok : formatPathPanic d.client_format d.output = none)
    (hfn : f d = .error e) :
    (GeneratorMetadata.mk n dflt f).generate pre d
      = (.errs e, ⟨true, false, pre, [], [], []⟩)
    ∧ ∀ (h : Host) (r : Request), r.method = "generate" →
        h.decode r.params = some d → h.pre = pre →
        stepResult (GeneratorMetadata.mk n dflt f) h r = some (.error 0 e) := by
  have hg : (GeneratorMetadata.mk n dflt f).generate pre d
      = (.errs e, ⟨true, false, pre, [], [], []⟩) := by
    simp [GeneratorMetadata.generate, hok, hfn]
  refine ⟨hg, fun h r hm hdec hpre => ?_⟩
  rw [stepResult, if_neg (by rw [hm]; decide), if_pos hm, hdec, hpre]
  dsimp only
  rw [hg]

/-- Witness for C9: a failing generation function over a pre-existing
removable directory leaves it in place, writes nothing, and yields the
error response carrying its message. -/
theorem claim9_witness :
    wGenErr.generate (.dir true) wDmmfFile
      = (.errs "model failure", ⟨true, false, .dir true, [], [], []⟩)
    ∧ stepResult wGenErr ⟨fun _ => some wDmmfFile, .dir true⟩
        ⟨.num 3, "generate", "pp"⟩
      = some (.error 0 "model failure") := by
  have h := claim9_error_leaves_fs "prisma-client-rust" "./db"
    (fun _ => .error "model failure") (.dir true) wDmmfFile "model failure"
    (by decide) rfl
  exact ⟨h.1, h.2 ⟨fun _ => some wDmmfFile, .dir true⟩ ⟨.num 3, "generate", "pp"⟩
    rfl rfl rfl⟩

/-- Counterexample to claim C2 as stated: the cleanup step removes
pre-existing content via recursive directory removal, which fails (and is
swallowed) on a plain file — so with a stale regular file at the output
path and a succeeding generation function, the invocation completes but
the file is still present after the cleanup step, not removed. -/
theorem claim2_counterexample :
    (wGenOk.generate (.file "stale") wDmmfFile).1 = .ok
    ∧ (wGenOk.generate (.file "stale") wDmmfFile).2.state_after_cleanup
        = .file "stale"
    ∧ (wGenOk.generate (.file "stale") wDmmfFile).2.state_after_cleanup
        ≠ .absent := by
  refine ⟨by decide, by decide, by decide⟩

/-- Claim C2 (amended): after the generation function succeeds and
before anything is written, removal of stale output is attempted once,
as recursive directory removal: a removable pre-existing directory is
removed; a pre-existing plain file, a missing target and a
permission-protected directory are left as they are, the failure being
swallowed, and generation proceeds regardless. -/
theorem claim2_cleanup_amended (n dflt : String)
    (f : EngineDMMF → Except String Module) (pre : OutputState) (d : EngineDMMF)
    (m : Module)
    (hok : formatPathPanic d.client_format d.output = none)
    (hfn : f d = .ok m) :
    ((GeneratorMetadata.mk n dflt f).generate pre d).1 = .ok
    ∧ ((GeneratorMetadata.mk n dflt f).generate pre d).2.remove_attempted = true
    ∧ ((GeneratorMetadata.mk n dflt f).generate pre d).2.state_after_cleanup
        = remove_dir_all pre
    ∧ (pre = .dir true →
        ((GeneratorMetadata.mk n dflt f).generate pre d).2.state_after_cleanup
          = .absent)
    ∧ (∀ c, pre = .file c →
        ((GeneratorMetadata.mk n dflt f).generate pre d).2.state_after_cleanup
          = .file c)
    ∧ (pre = .absent →
        ((GeneratorMetadata.mk n dflt f).generate pre d).2.state_after_cleanup
          = .absent)
    ∧ (pre = .dir false →
        ((GeneratorMetadata.mk n dflt f).generate pre d).2.state_after_cleanup
          = .dir false) := by
  have hg : ((GeneratorMetadata.mk n dflt f).generate pre d).1 = .ok
      ∧ ((GeneratorMetadata.mk n dflt f).generate pre d).2.remove_attempted = true
      ∧ ((GeneratorMetadata.mk n dflt f).generate pre d).2.state_after_cleanup
        = remove_dir_all pre := by
    cases d with
    | mk dm out fmt => cases fmt <;> simp_all [GeneratorMetadata.generate]
  refine ⟨hg.1, hg.2.1, hg.2.2, fun hp => ?_, fun c hp => ?_, fun hp => ?_,
    fun hp => ?_⟩ <;> rw [hg.2.2, hp] <;> rfl

/-- Witness for C2 (amended): with a removable stale directory at the
output path, the cleanup removes it and generation completes. -/
theorem claim2_witness :
    (wGenOk.generate (.dir true) wDmmfFile).1 = .ok
    ∧ (wGenOk.generate (.dir true) wDmmfFile).2.remove_attempted = true
    ∧ (wGenOk.generate (.dir true) wDmmfFile).2.state_after_cleanup
        = remove_dir_all (.dir true)
    ∧ ((.dir true : OutputState) = .dir true →
        (wGenOk.generate (.dir true) wDmmfFile).2.state_after_cleanup = .absent) := by
  have h := claim2_cleanup_amended "prisma-client-rust" "./db"
    (fun _ => .ok wTree) (.dir true) wDmmfFile wTree (by decide) rfl
  exact ⟨h.1, h.2.1, h.2.2.1, h.2.2.2.1⟩

/-- Over an extensionless base path and usable names, the enumeration of
a submodule list coincides with the first components of its write plan. -/
theorem getAllPathsList_eq (header : String) (subs : List Module) (p : String)
    (hih : ∀ x ∈ subs, ∀ q : String, pathExtension q = none → namesOk x = true →
      x.get_all_paths q = (write_module_to_file x q header).map Prod.fst)
    (hnames : namesOkList subs = true) :
    getAllPathsList subs p = (writeSubmodules subs p header).map Prod.fst := by
  induction subs with
  | nil => rfl
  | cons c rest ih =>
    rw [getAllPathsList, writeSubmodules, List.map_append]
    have hn := hnames
    rw [namesOkList, Bool.and_eq_true, Bool.and_eq_true] at hn
    congr 1
    · exact hih c (by simp) _ (pathExtension_join hn.1.1) hn.1.2
    · exact ih (fun x hx => hih x (by simp [hx])) hn.2

/-- Over an extensionless base path and a tree of usable names, the path
enumeration handed to the formatter is exactly the sequence of file
paths in the folder write plan. -/
theorem get_all_paths_eq_plan (header : String) :
    ∀ (m : Module) (p : String), pathExtension p = none → namesOk m = true →
      m.get_all_paths p = (write_module_to_file m p header).map Prod.fst := by
  refine Module.strongInd _ (fun n c subs ih p hp hn => ?_)
  rw [Module.get_all_paths, write_module_to_file]
  rw [namesOk] at hn
  by_cases hsub : subs.isEmpty
  · have hsubnil : subs = [] := List.isEmpty_iff.mp hsub
    subst hsubnil
    simp [hp, write_to_file]
  · rw [if_neg (by simp [hp]), if_neg hsub, if_pos (by simp [hsub]), List.map_append]
    congr 1
    exact getAllPathsList_eq header subs p (fun x hx q hq hnx => ih x hx q hq hnx) hn

/-- Claim C1: every invocation that reaches the formatting step hands
the formatter exactly the file paths its write plan materialized — under
folder layout every leaf and aggregator path, under file layout exactly
the single configured output path. -/
theorem claim1_formatter_paths (n dflt : String)
    (f : EngineDMMF → Except String Module) (pre : OutputState) (d : EngineDMMF)
    (m : Module)
    (hok : formatPathPanic d.client_format d.output = none)
    (hnames : namesOk m = true)
    (hfn : f d = .ok m) :
    ((GeneratorMetadata.mk n dflt f).generate pre d).1 = .ok
    ∧ ((GeneratorMetadata.mk n dflt f).generate pre d).2.rustfmt_paths
        = ((GeneratorMetadata.mk n dflt f).generate pre d).2.writes.map Prod.fst
    ∧ (d.client_format = .File →
        ((GeneratorMetadata.mk n dflt f).generate pre d).2.rustfmt_paths
          = [d.output]) := by
  obtain ⟨dm, out, fmt⟩ := d
  cases fmt with
  | Folder =>
    have hext : pathExtension out = none := by
      by_contra hne
      rw [formatPathPanic] at hok
      rcases hpe : pathExtension out with - | e
      · exact hne hpe
      · rw [hpe] at hok; simp at hok
    have hgen : (GeneratorMetadata.mk n dflt f).generate pre ⟨dm, out, .Folder⟩
        = (.ok, ⟨true, true, remove_dir_all pre,
            write_module_to_file m out (genHeader n),
            (write_module_to_file m out (genHeader n)).filterMap
              (fun w => parentDir w.1),
            m.get_all_paths out⟩) := by
      simp [GeneratorMetadata.generate, formatPathPanic, hext, hfn]
    rw [hgen]
    exact ⟨rfl, get_all_paths_eq_plan (genHeader n) m out hext hnames,
      fun hc => by cases hc⟩
  | File =>
    have hnone : (pathExtension out).isNone = false := by
      cases hpe : pathExtension out with
      | none => rw [formatPathPanic, hpe] at hok; simp at hok
      | some e => rfl
    have hext : (pathExtension out).isSome = true := by
      cases hpe : pathExtension out with
      | none => rw [hpe] at hnone; simp at hnone
      | some e => rfl
    have hpaths : m.get_all_paths out = [out] := by
      obtain ⟨nm, ct, subs⟩ := m
      rw [Module.get_all_paths, if_pos hext]
    have hgen : (GeneratorMetadata.mk n dflt f).generate pre ⟨dm, out, .File⟩
        = (.ok, ⟨true, true, remove_dir_all pre,
            [(out, genHeader n ++ m.flatten)],
            [(out, genHeader n ++ m.flatten)].filterMap (fun w => parentDir w.1),
            m.get_all_paths out⟩) := by
      simp [GeneratorMetadata.generate, formatPathPanic, hnone, hfn, write_to_file]
    rw [hgen, hpaths]
    exact ⟨rfl, rfl, fun _ => rfl⟩

/-- Witness for C1: the folder-layout scenario run hands the formatter
exactly the plan's file paths. -/
theorem claim1_witness :
    ((GeneratorMetadata.mk "prisma-client-rust" "./db"
        (fun _ => .ok wTree)).generate .absent wDmmfFolder).1 = .ok
    ∧ ((GeneratorMetadata.mk "prisma-client-rust" "./db"
        (fun _ => .ok wTree)).generate .absent wDmmfFolder).2.rustfmt_paths
      = (((GeneratorMetadata.mk "prisma-client-rust" "./db"
          (fun _ => .ok wTree)).generate .absent wDmmfFolder).2.writes).map Prod.fst
    ∧ (wDmmfFolder.client_format = .File →
        ((GeneratorMetadata.mk "prisma-client-rust" "./db"
          (fun _ => .ok wTree)).generate .absent wDmmfFolder).2.rustfmt_paths
          = [wDmmfFolder.output]) :=
  claim1_formatter_paths "prisma-client-rust" "./db" (fun _ => .ok wTree)
    .absent wDmmfFolder wTree (by decide) (by decide) rfl

/-- The write plan of a submodule list, child by child: a childless
child becomes a single file named by its snake-cased name with the `rs`
extension under the directory; a child with children contributes its own
recursive plan rooted at its snake-cased directory. -/
theorem writeSubmodules_eq (header : String) :
    ∀ (subs : List Module) (dir : String),
      (∀ c ∈ subs, identOkB (toSnake c.name) = true) →
      writeSubmodules subs dir header
        = (subs.map (fun c =>
            if c.submodules.isEmpty then
              [(pathJoin dir (toSnake c.name) ++ ".rs", header ++ c.contents)]
            else
              write_module_to_file c (pathJoin dir (toSnake c.name)) header)).flatten := by
  intro subs
  induction subs with
  | nil => intro dir _; rfl
  | cons c rest ih =>
    intro dir hnames
    rw [writeSubmodules, List.map_cons, List.flatten_cons]
    congr 1
    · obtain ⟨cn, cct, csubs⟩ := c
      by_cases hcs : csubs.isEmpty
      · have hnil : csubs = [] := List.isEmpty_iff.mp hcs
        subst hnil
        rw [write_module_to_file]
        rw [withExtension_join (hnames ⟨cn, cct, []⟩ (by simp))]
        simp [Module.submodules, Module.contents, write_to_file]
      · rw [if_neg (by simpa [Module.submodules] using hcs)]
    · exact ih dir (fun x hx => hnames x (by simp [hx]))

/-- Claim C5: under folder layout a node with children owns a directory
(the parent of its aggregator file is exactly its own path), recurses
into each child in order under that directory, and writes `mod.rs` there
containing one `pub mod <snake-cased child name>;` per child followed by
its own contents; each childless child is written as
`<snake-cased name>.rs` under the directory with the header prefixed. -/
theorem claim5_folder_materialization (dir header nm ct : String)
    (subs : List Module)
    (hne : subs ≠ [])
    (hnames : ∀ c ∈ subs, identOkB (toSnake c.name) = true)
    (hdir : dir ≠ "") :
    write_module_to_file (.mk nm ct subs) dir header
      = (subs.map (fun c =>
          if c.submodules.isEmpty then
            [(pathJoin dir (toSnake c.name) ++ ".rs", header ++ c.contents)]
          else
            write_module_to_file c (pathJoin dir (toSnake c.name)) header)).flatten
        ++ [(pathJoin dir "mod.rs",
            header ++ (String.join (subs.map
                (fun c => "pub mod " ++ toSnake c.name ++ ";\n")) ++ ct))]
    ∧ parentDir (pathJoin dir "mod.rs") = some dir := by
  constructor
  · rw [write_module_to_file, if_pos (by simp [hne])]
    rw [writeSubmodules_eq header subs dir hnames]
    rfl
  · have hddata : dir.data ≠ [] := by
      intro hc
      exact hdir (String.ext (hc.trans rfl))
    have hmodrs : ∀ c ∈ ("mod.rs" : String).data, (c != '/') = true := by decide
    have hdata : (pathJoin dir "mod.rs").data = dir.data ++ '/' :: ("mod.rs" : String).data :=
      pathJoin_data dir "mod.rs"
    rw [parentDir, if_neg (by simp [hdata]), hdata,
      dirSlashChars_append dir.data _ hmodrs]
    rw [if_neg (by simp), if_neg (by
      intro hc
      have : dir.data.length + 1 = 1 := by
        simpa using congrArg List.length hc
      exact hddata (List.length_eq_zero.mp (by omega)))]
    rw [List.dropLast_concat]

/-- Witness for C5: the spec's end-to-end folder scenario, with the
aggregator parented at the output directory. -/
theorem claim5_witness :
    write_module_to_file (.mk "Client" "A" [.mk "Model" "B" []]) "./generated" "H"
      = (([.mk "Model" "B" []] : List Module).map (fun c =>
          if c.submodules.isEmpty then
            [(pathJoin "./generated" (toSnake c.name) ++ ".rs", "H" ++ c.contents)]
          else
            write_module_to_file c (pathJoin "./generated" (toSnake c.name)) "H")).flatten
        ++ [(pathJoin "./generated" "mod.rs",
            "H" ++ (String.join (([.mk "Model" "B" []] : List Module).map
                (fun c => "pub mod " ++ toSnake c.name ++ ";\n")) ++ "A"))]
    ∧ parentDir (pathJoin "./generated" "mod.rs") = some "./generated" :=
  claim5_folder_materialization "./generated" "H" "Client" "A"
    [.mk "Model" "B" []] (List.cons_ne_nil _ _)
    (by intro c hc; rw [List.mem_singleton.mp hc]; decide) (by decide)

/-- The parent directory created for the file `out.rs` is strictly
shorter than the path `out` itself (when `out` has a file name), hence
in particular it is never `out`. -/
theorem parentDir_withExtension_lt (p : String)
    (hf : fileNameChars p.data ≠ []) :
    ∀ q, parentDir (withExtension p "rs") = some q →
      q.data.length < p.data.length := by
  intro q hq
  have hsplit := dirSlash_append_fileName p.data
  have hstem : ∀ c ∈ stemChars (fileNameChars p.data), (c != '/') = true := by
    intro c hc
    apply fileNameChars_mem p.data
    rw [stemChars] at hc
    split at hc
    · exact List.take_subset _ _ hc
    · exact hc
  have hrest : ∀ c ∈ stemChars (fileNameChars p.data) ++ '.' :: ("rs" : String).data,
      (c != '/') = true := by
    intro c hc
    rcases List.mem_append.mp hc with h | h
    · exact hstem c h
    · rcases List.mem_cons.mp h with h1 | h1
      · rw [h1]; decide
      · have h2 : c = 'r' ∨ c = 's' := by simpa using h1
        rcases h2 with h2 | h2 <;> rw [h2] <;> decide
  have hwe : (withExtension p "rs").data
      = dirSlashChars p.data
        ++ (stemChars (fileNameChars p.data) ++ '.' :: ("rs" : String).data) := by
    rw [withExtension]
    simp [List.append_assoc]
  have hlen : p.data.length
      = (dirSlashChars p.data).length + (fileNameChars p.data).length := by
    conv_lhs => rw [← hsplit]
    rw [List.length_append]
  have hfpos : 0 < (fileNameChars p.data).length := List.length_pos.mpr hf
  rw [parentDir, hwe] at hq
  rcases dirSlashChars_last p.data with hdnil | ⟨a, ha⟩
  · rw [hdnil] at hq
    simp only [List.nil_append] at hq
    rw [dirSlashChars_no_slash _ hrest] at hq
    rw [if_neg (by simp), if_pos (by rfl)] at hq
    have hqe : q = "" := by simpa using hq.symm
    subst hqe
    have h0 : (dirSlashChars p.data).length = 0 := by rw [hdnil]; rfl
    have hq0 : ("" : String).data.length = 0 := rfl
    omega
  · rw [ha] at hq
    have hassoc : (a ++ ['/']) ++ (stemChars (fileNameChars p.data)
        ++ '.' :: ("rs" : String).data)
        = a ++ '/' :: (stemChars (fileNameChars p.data)
          ++ '.' :: ("rs" : String).data) := by simp
    rw [hassoc, dirSlashChars_append a _ hrest] at hq
    rw [if_neg (by simp)] at hq
    rw [if_neg (by simp)] at hq
    by_cases hanil : a = []
    · subst hanil
      rw [if_pos (by simp)] at hq
      have hqe : q = "/" := by simpa using hq.symm
      subst hqe
      have hdl : (dirSlashChars p.data).length = 1 := by rw [ha]; rfl
      have hq1 : ("/" : String).data.length = 1 := rfl
      omega
    · rw [if_neg (fun hc => hanil (by simpa using hc))] at hq
      rw [List.dropLast_concat] at hq
      have hqe : q = String.mk a := by simpa using hq.symm
      subst hqe
      have hdl : (dirSlashChars p.data).length = a.length + 1 := by
        rw [ha, List.length_append]; rfl
      have hqa : (String.mk a).data.length = a.length := rfl
      omega

/-- Claim C10: under folder layout with a childless root, the pipeline
writes exactly one file at the output path with the `rs` extension
appended (no directory is created at the output path: every created
directory differs from it), and the root's name plays no part — any
generation function returning a childless root with the same contents
yields the identical invocation result. -/
theorem claim10_leaf_root (n dflt : String)
    (f : EngineDMMF → Except String Module) (pre : OutputState)
    (dm out : String) (nm ct : String)
    (hext : pathExtension out = none)
    (hfn : f ⟨dm, out, .Folder⟩ = .ok (.mk nm ct []))
    (hfile : fileNameChars out.data ≠ []) :
    ((GeneratorMetadata.mk n dflt f).generate pre ⟨dm, out, .Folder⟩).2.writes
      = [(withExtension out "rs", genHeader n ++ ct)]
    ∧ (∀ (nm₂ : String) (f₂ : EngineDMMF → Except String Module),
        f₂ ⟨dm, out, .Folder⟩ = .ok (.mk nm₂ ct []) →
        (GeneratorMetadata.mk n dflt f₂).generate pre ⟨dm, out, .Folder⟩
          = (GeneratorMetadata.mk n dflt f).generate pre ⟨dm, out, .Folder⟩)
    ∧ ∀ q ∈ ((GeneratorMetadata.mk n dflt f).generate pre
        ⟨dm, out, .Folder⟩).2.dirs_created, q ≠ out := by
  have hgen : ∀ (nm' : String) (f' : EngineDMMF → Except String Module),
      f' ⟨dm, out, .Folder⟩ = .ok (.mk nm' ct []) →
      (GeneratorMetadata.mk n dflt f').generate pre ⟨dm, out, .Folder⟩
        = (.ok, ⟨true, true, remove_dir_all pre,
            [(withExtension out "rs", genHeader n ++ ct)],
            [(withExtension out "rs", genHeader n ++ ct)].filterMap
              (fun w => parentDir w.1),
            [withExtension out "rs"]⟩) := by
    intro nm' f' hf'
    simp [GeneratorMetadata.generate, formatPathPanic, hext, hf',
      write_module_to_file, write_to_file, Module.get_all_paths]
  refine ⟨by rw [hgen nm f hfn], fun nm₂ f₂ hf₂ => ?_, ?_⟩
  · rw [hgen nm f hfn, hgen nm₂ f₂ hf₂]
  · intro q hq
    rw [hgen nm f hfn] at hq
    obtain ⟨w, hw, hpw⟩ := List.mem_filterMap.mp hq
    rw [List.mem_singleton.mp hw] at hpw
    have hlt := parentDir_withExtension_lt out hfile q hpw
    intro heq
    rw [heq] at hlt
    omega

/-- Witness for C10: output path "./generated" with a childless root
yields the single file "./generated.rs", no directory at "./generated",
and the same result for a differently-named root. -/
theorem claim10_witness :
    ((GeneratorMetadata.mk "prisma-client-rust" "./db"
        (fun _ => .ok wLeaf)).generate .absent
        ⟨"model User", "./generated", .Folder⟩).2.writes
      = [(withExtension "./generated" "rs", genHeader "prisma-client-rust" ++ "A")]
    ∧ (∀ (nm₂ : String) (f₂ : EngineDMMF → Except String Module),
        f₂ ⟨"model User", "./generated", .Folder⟩ = .ok (.mk nm₂ "A" []) →
        (GeneratorMetadata.mk "prisma-client-rust" "./db" f₂).generate .absent
            ⟨"model User", "./generated", .Folder⟩
          = (GeneratorMetadata.mk "prisma-client-rust" "./db"
              (fun _ => .ok wLeaf)).generate .absent
              ⟨"model User", "./generated", .Folder⟩)
    ∧ ∀ q ∈ ((GeneratorMetadata.mk "prisma-client-rust" "./db"
        (fun _ => .ok wLeaf)).generate .absent
        ⟨"model User", "./generated", .Folder⟩).2.dirs_created,
        q ≠ "./generated" :=
  claim10_leaf_root "prisma-client-rust" "./db" (fun _ => .ok wLeaf) .absent
    "model User" "./generated" "Client" "A" (by decide) rfl (by decide)

/-- The single file of the C10 scenario is literally "./generated.rs":
the configured output path with the extension appended. -/
theorem claim10_path_value : withExtension "./generated" "rs" = "./generated.rs" := by
  decide

end Sdk
